import Mathlib

/-!
Verification of the trip_tracker repository's core behaviour against its
natural-language specification.  The Rust sources are shallowly embedded:
machine integers become `Nat`/`Int` with explicit `% 2^w` where overflow
matters, byte slices become `List Nat`, fallible code returns
`Option`/`Except`, and panicking code is modelled with a dedicated
"panic" constructor so that panics are observable.
-/

namespace TripTracker

/-! ### Big-endian byte encoding helpers

Rust's `to_be_bytes` / `from_be_bytes` on fixed-width integers,
modelled on `Nat` and (for `i64`) on `Int` with two's complement.
-/

/-- The `k` big-endian bytes of `n % 2^(8*k)`, mirroring Rust `to_be_bytes`.
The most significant byte comes first. -/
def natToBytesBE : Nat → Nat → List Nat
  | 0, _ => []
  | k + 1, n => (n / 2 ^ (8 * k)) % 256 :: natToBytesBE k n

/-- Big-endian interpretation of a byte list, mirroring Rust `from_be_bytes`. -/
def bytesToNatBE (bs : List Nat) : Nat :=
  bs.foldl (fun acc b => acc * 256 + b) 0

theorem natToBytesBE_length (k n : Nat) : (natToBytesBE k n).length = k := by
  induction k generalizing n with
  | zero => rfl
  | succ k ih => simp [natToBytesBE, ih]

theorem bytesToNatBE_foldl (k n a : Nat) :
    (natToBytesBE k n).foldl (fun acc b => acc * 256 + b) a =
      a * 2 ^ (8 * k) + n % 2 ^ (8 * k) := by
  induction k generalizing n a with
  | zero => simp [natToBytesBE, Nat.mod_one]
  | succ k ih =>
      have hpow : (2 : Nat) ^ (8 * (k + 1)) = 2 ^ (8 * k) * 256 := by
        rw [Nat.mul_succ, pow_add]
        norm_num
      have hmod : n % 2 ^ (8 * (k + 1)) =
          (n / 2 ^ (8 * k)) % 256 * 2 ^ (8 * k) + n % 2 ^ (8 * k) := by
        rw [hpow, Nat.mod_mul]
        ring
      simp only [natToBytesBE, List.foldl_cons, ih]
      rw [hmod, hpow]
      ring

theorem bytesToNatBE_natToBytesBE (k n : Nat) :
    bytesToNatBE (natToBytesBE k n) = n % 2 ^ (8 * k) := by
  simpa using bytesToNatBE_foldl k n 0

theorem natToBytesBE_lt (k n : Nat) : ∀ b ∈ natToBytesBE k n, b < 256 := by
  induction k generalizing n with
  | zero => simp [natToBytesBE]
  | succ k ih =>
      intro b hb
      simp only [natToBytesBE, List.mem_cons] at hb
      rcases hb with h | h
      · omega
      · exact ih n b h

/-- Rust `i64::to_be_bytes`: the 8 big-endian bytes of the two's-complement
representation of `z`. -/
def i64ToBytesBE (z : Int) : List Nat :=
  natToBytesBE 8 (z % 2 ^ 64).toNat

/-- Rust `i64::from_be_bytes`: two's-complement interpretation of 8 bytes. -/
def bytesToI64BE (bs : List Nat) : Int :=
  if bytesToNatBE bs < 2 ^ 63 then (bytesToNatBE bs : Int)
  else (bytesToNatBE bs : Int) - 2 ^ 64

theorem i64ToBytesBE_length (z : Int) : (i64ToBytesBE z).length = 8 :=
  natToBytesBE_length 8 _

theorem bytesToI64BE_i64ToBytesBE (z : Int)
    (h₁ : -2 ^ 63 ≤ z) (h₂ : z < 2 ^ 63) :
    bytesToI64BE (i64ToBytesBE z) = z := by
  have hmod : (0 : Int) ≤ z % 2 ^ 64 := Int.emod_nonneg z (by norm_num)
  have hlt : z % 2 ^ 64 < 2 ^ 64 := Int.emod_lt_of_pos z (by norm_num)
  have hsmall : (z % 2 ^ 64).toNat % 2 ^ (8 * 8) = (z % 2 ^ 64).toNat := by
    apply Nat.mod_eq_of_lt
    have h : (2 : Nat) ^ (8 * 8) = 2 ^ 64 := by norm_num
    rw [h]
    omega
  unfold bytesToI64BE i64ToBytesBE
  rw [bytesToNatBE_natToBytesBE, hsmall]
  split <;> omega

/-! ### Handshake codec (`trip_tracker_lib/src/comms.rs`)

`HandshakeMessage` is a 17-byte tagged union: byte 0 is the tag
(`0` = FreshSession, `1` = Reconnect), bytes 1..9 the big-endian `trip_id`,
bytes 9..17 the big-endian `timestamp` (fresh) or `session_id` (reconnect).
-/

inductive CommsError
  | decodeError
  | encodeError
  | wrongSignature
  deriving DecidableEq, Repr

inductive HandshakeMessage
  | freshSession (trip_id timestamp : Int)
  | reconnect (trip_id session_id : Int)
  deriving DecidableEq, Repr

/-- `HandshakeMessage::serialize`: 17 bytes, tag first. -/
def HandshakeMessage.serialize : HandshakeMessage → List Nat
  | .freshSession trip_id timestamp => 0 :: (i64ToBytesBE trip_id ++ i64ToBytesBE timestamp)
  | .reconnect trip_id session_id => 1 :: (i64ToBytesBE trip_id ++ i64ToBytesBE session_id)

/-- `HandshakeMessage::deserialize`: reads the tag at index 0, the i64 at
bytes 1..9 and the i64 at bytes 9..17; any tag other than 0 or 1 is a
`DecodeError`. -/
def HandshakeMessage.deserialize (data : List Nat) : Except CommsError HandshakeMessage :=
  let message_type := data.getD 0 0
  let trip_id := bytesToI64BE ((data.drop 1).take 8)
  let session_id_or_timestamp := bytesToI64BE ((data.drop 9).take 8)
  match message_type with
  | 0 => .ok (.freshSession trip_id session_id_or_timestamp)
  | 1 => .ok (.reconnect trip_id session_id_or_timestamp)
  | _ => .error .decodeError

/-- An i64 value is in the two's-complement range. -/
def isI64 (z : Int) : Prop := -2 ^ 63 ≤ z ∧ z < 2 ^ 63

instance (z : Int) : Decidable (isI64 z) := by unfold isI64; infer_instance

/-- All integer fields of a handshake message fit in an `i64`. -/
def HandshakeMessage.wf : HandshakeMessage → Prop
  | .freshSession trip_id timestamp => isI64 trip_id ∧ isI64 timestamp
  | .reconnect trip_id session_id => isI64 trip_id ∧ isI64 session_id

instance (m : HandshakeMessage) : Decidable m.wf := by
  cases m <;> (unfold HandshakeMessage.wf; infer_instance)

theorem serialize_take_drop (a b : Int) (tag : Nat) :
    ((tag :: (i64ToBytesBE a ++ i64ToBytesBE b)).drop 1).take 8 = i64ToBytesBE a ∧
    ((tag :: (i64ToBytesBE a ++ i64ToBytesBE b)).drop 9).take 8 = i64ToBytesBE b := by
  constructor
  · rw [List.drop_one, List.tail_cons, List.take_append_of_le_length (by rw [i64ToBytesBE_length])]
    exact List.take_of_length_le (by rw [i64ToBytesBE_length])
  · have h9 : (9 : Nat) = 1 + 8 := by norm_num
    rw [h9, ← List.drop_drop, List.drop_one, List.tail_cons,
      List.drop_append_of_le_length (by rw [i64ToBytesBE_length]),
      List.drop_of_length_le (by rw [i64ToBytesBE_length]), List.nil_append]
    exact List.take_of_length_le (by rw [i64ToBytesBE_length])

/-- Claim C7: for every handshake message `m` (FreshSession or Reconnect) whose
fields are i64 values, `HandshakeMessage.deserialize (HandshakeMessage.serialize m)`
returns `m` successfully. -/
theorem C7_handshake_roundtrip (m : HandshakeMessage) (hwf : m.wf) :
    HandshakeMessage.deserialize m.serialize = .ok m := by
  cases m with
  | freshSession trip_id timestamp =>
      obtain ⟨⟨h1, h2⟩, h3, h4⟩ := hwf
      obtain ⟨ha, hb⟩ := serialize_take_drop trip_id timestamp 0
      simp only [HandshakeMessage.serialize, HandshakeMessage.deserialize, ha, hb,
        List.getD_cons_zero, bytesToI64BE_i64ToBytesBE _ h1 h2,
        bytesToI64BE_i64ToBytesBE _ h3 h4]
  | reconnect trip_id session_id =>
      obtain ⟨⟨h1, h2⟩, h3, h4⟩ := hwf
      obtain ⟨ha, hb⟩ := serialize_take_drop trip_id session_id 1
      simp only [HandshakeMessage.serialize, HandshakeMessage.deserialize, ha, hb,
        List.getD_cons_zero, bytesToI64BE_i64ToBytesBE _ h1 h2,
        bytesToI64BE_i64ToBytesBE _ h3 h4]

/-- Claim C7 witness: the round trip at a concrete reconnect message. -/
theorem C7_handshake_roundtrip_witness :
    (HandshakeMessage.reconnect 7 99).wf ∧
      HandshakeMessage.deserialize (HandshakeMessage.reconnect 7 99).serialize =
        .ok (HandshakeMessage.reconnect 7 99) :=
  ⟨by decide, C7_handshake_roundtrip (HandshakeMessage.reconnect 7 99) (by decide)⟩

/-! ### Net error codes (`upload_service.rs`, `NetError::from_code` and `connect`)

`NetError::from_code` matches the thirteen code strings `"0"` … `"12"` and
hits `unreachable!` on anything else; the panic is modelled as `none`.
At the call site in `connect`, the `+CIPOPEN` URC payload is split at the
first comma with `split_once(',').unwrap()`; a payload without a comma
panics, modelled by `splitOnceChar` returning `none`.
-/

inductive NetError
  | succes
  | networkFailure
  | networkNotOpened
  | wrongParameter
  | operationNotSuported
  | failedToCreateSocket
  | failedToBindSocket
  | tcpServerIsAlreadyListening
  | busy
  | socketsOpened
  | timeout
  | dnsParseFailed
  | unknown
  deriving DecidableEq, Repr

/-- `NetError::from_code`; the `unreachable!` arm is `none`. -/
def NetError.from_code (code : String) : Option NetError :=
  if code = "0" then some .succes
  else if code = "1" then some .networkFailure
  else if code = "2" then some .networkNotOpened
  else if code = "3" then some .wrongParameter
  else if code = "4" then some .operationNotSuported
  else if code = "5" then some .failedToCreateSocket
  else if code = "6" then some .failedToBindSocket
  else if code = "7" then some .tcpServerIsAlreadyListening
  else if code = "8" then some .busy
  else if code = "9" then some .socketsOpened
  else if code = "10" then some .timeout
  else if code = "11" then some .dnsParseFailed
  else if code = "12" then some .unknown
  else none

/-- The thirteen strings `NetError::from_code` accepts. -/
def netErrorCodes : List String :=
  ["0", "1", "2", "3", "4", "5", "6", "7", "8", "9", "10", "11", "12"]

/-- Rust `str::split_once(sep)`: splits at the first occurrence of `sep`,
`None` when `sep` does not occur. -/
def splitOnceChar (sep : Char) : List Char → Option (List Char × List Char)
  | [] => none
  | c :: cs =>
      if c = sep then some ([], cs)
      else (splitOnceChar sep cs).map (fun p => (c :: p.1, p.2))

theorem splitOnceChar_eq_none (sep : Char) (cs : List Char) :
    splitOnceChar sep cs = none ↔ sep ∉ cs := by
  induction cs with
  | nil => simp [splitOnceChar]
  | cons c cs ih =>
      by_cases h : c = sep
      · subst h
        simp [splitOnceChar]
      · simp only [splitOnceChar, if_neg h, List.mem_cons]
        rw [Option.map_eq_none']
        constructor
        · intro hn hmem
          rcases hmem with h1 | h2
          · exact h h1.symm
          · exact (ih.mp hn) h2
        · intro hn
          exact ih.mpr (fun hw => hn (Or.inr hw))

/-- Claim C10: `NetError::from_code` is total exactly on the thirteen code
strings `"0"` … `"12"` and panics (`unreachable!`, modelled `none`) on every
other string; and at the `connect` call site a `+CIPOPEN` payload with no
comma panics in `split_once(',').unwrap()` (modelled by `splitOnceChar`
returning `none`), so such inputs crash instead of yielding an error value. -/
theorem C10_from_code_domain :
    (∀ code : String, (NetError.from_code code).isSome ↔ code ∈ netErrorCodes) ∧
    (∀ payload : List Char, splitOnceChar ',' payload = none ↔ ',' ∉ payload) := by
  constructor
  · intro code
    by_cases hc : code ∈ netErrorCodes
    · simp only [netErrorCodes, List.mem_cons, List.not_mem_nil, or_false] at hc
      rcases hc with h | h | h | h | h | h | h | h | h | h | h | h | h <;> (subst h; decide)
    · have hn : NetError.from_code code = none := by
        simp only [netErrorCodes, List.mem_cons, List.not_mem_nil, or_false, not_or] at hc
        obtain ⟨n0, n1, n2, n3, n4, n5, n6, n7, n8, n9, n10, n11, n12⟩ := hc
        unfold NetError.from_code
        rw [if_neg n0, if_neg n1, if_neg n2, if_neg n3, if_neg n4, if_neg n5, if_neg n6,
          if_neg n7, if_neg n8, if_neg n9, if_neg n10, if_neg n11, if_neg n12]
      rw [hn]
      simp only [Option.isSome_none, Bool.false_eq_true, false_iff]
      exact hc
  · exact splitOnceChar_eq_none ','

/-! ### URC subscriber inboxes (`urc_subscriber_set.rs`)

Persistent subscribers have a bounded inbox (`Channel` of depth
`URC_CHANNEL_SIZE = 10`).  `URCSubscriber::send` uses `try_send`, which on a
full channel returns an error and leaves the queue unchanged; the subscriber
then merely logs "channel full, dropping response".
-/

def URC_CHANNEL_SIZE : Nat := 10

/-- embassy `Channel::try_send` on a channel of capacity `cap`: enqueue at the
back when there is room, otherwise fail and leave the queue untouched.  The
`Bool` reports success. -/
def channelTrySend (cap : Nat) (q : List String) (m : String) : List String × Bool :=
  if q.length < cap then (q ++ [m], true) else (q, false)

/-- `URCSubscriber::send` for a persistent subscriber: `try_send` into the
depth-10 inbox; on failure the response is dropped (only a warning is
logged). -/
def urcSubscriberSend (q : List String) (m : String) : List String :=
  (channelTrySend URC_CHANNEL_SIZE q m).1

/-- Claim C4 counterexample: with a full inbox of 10 messages, sending one
more leaves the inbox unchanged — the NEW message is discarded, the oldest
is kept, contradicting the claimed drop-oldest behaviour. -/
theorem C4_counterexample :
    urcSubscriberSend ["0", "1", "2", "3", "4", "5", "6", "7", "8", "9"] "x" =
        ["0", "1", "2", "3", "4", "5", "6", "7", "8", "9"] ∧
    urcSubscriberSend ["0", "1", "2", "3", "4", "5", "6", "7", "8", "9"] "x" ≠
        (["0", "1", "2", "3", "4", "5", "6", "7", "8", "9"].tail ++ ["x"]) ∧
    "x" ∉ urcSubscriberSend ["0", "1", "2", "3", "4", "5", "6", "7", "8", "9"] "x" := by
  refine ⟨rfl, ?_, ?_⟩ <;> decide

/-- Claim C4 (amended): when a URC arrives for a persistent subscriber whose
bounded inbox of depth 10 is full, the NEW message is discarded and the inbox
is left unchanged (so the subscriber keeps the oldest 10 queued messages);
when the inbox has room the message is enqueued at the back. -/
theorem C4_full_inbox_drops_newest (q : List String) (m : String) :
    (URC_CHANNEL_SIZE ≤ q.length → urcSubscriberSend q m = q) ∧
    (q.length < URC_CHANNEL_SIZE → urcSubscriberSend q m = q ++ [m]) := by
  constructor
  · intro h
    unfold urcSubscriberSend channelTrySend
    rw [if_neg (by omega)]
  · intro h
    unfold urcSubscriberSend channelTrySend
    rw [if_pos h]

/-- Claim C4 witness: the amended behaviour at a concrete full inbox. -/
theorem C4_full_inbox_drops_newest_witness :
    urcSubscriberSend ["0", "1", "2", "3", "4", "5", "6", "7", "8", "9"] "y" =
      ["0", "1", "2", "3", "4", "5", "6", "7", "8", "9"] :=
  (C4_full_inbox_drops_newest ["0", "1", "2", "3", "4", "5", "6", "7", "8", "9"] "y").1
    (by decide)

/-! ### Server reconnect handling (`server/src/tracker_endpoint.rs`, lines 105–115)

On a `Reconnect` handshake the server checks whether the session id is
already in the connected map; if so it only logs a warning (the branch body
is a `tracing::warn!` and a `TODO` comment) and then falls through to the
same session lookup as the non-connected case.  The connection is closed
only if the data-manager lookup of the session fails.

The connected map is modelled as a list of `(peer ip, session id)` pairs and
the data manager's session store as a list of `(session id, start time)`
pairs.
-/

inductive ReconnectOutcome
  | closed
  | resumed (start_time : Int)
  deriving DecidableEq, Repr

/-- The `HandshakeMessage::Reconnect` arm of `handle_connection`: returns
whether the "already connected" warning fired, and the outcome.
`connected.any` models `BiMap::contains_right`; `sessions.lookup` models
`data_manager.get_session` (its `Err` closes the connection). -/
def handleReconnect (connected : List (Nat × Int)) (sessions : List (Int × Int))
    (session_id : Int) : Bool × ReconnectOutcome :=
  let warned := connected.any (fun p => p.2 = session_id)
  match sessions.lookup session_id with
  | some start_time => (warned, .resumed start_time)
  | none => (warned, .closed)

/-- Claim C3 counterexample: with session id 42 already connected by peer 1
and present in the session store, the server does NOT close: it resumes the
session (loading its start time), merely logging the warning. -/
theorem C3_counterexample :
    handleReconnect [(1, 42)] [(42, 1000)] 42 = (true, .resumed 1000) ∧
    (handleReconnect [(1, 42)] [(42, 1000)] 42).2 ≠ .closed := by
  constructor <;> decide

/-- Claim C3 (amended): if the session id in a `Reconnect` handshake is
already present in the server's connected map, the server logs a warning but
does NOT close the connection: it proceeds exactly as in the non-connected
case, loading the existing session's start time and resuming; the connection
is closed only when the session lookup itself fails. -/
theorem C3_reconnect_warns_but_resumes (connected : List (Nat × Int))
    (sessions : List (Int × Int)) (session_id start_time : Int)
    (hconn : connected.any (fun p => p.2 = session_id) = true)
    (hsess : sessions.lookup session_id = some start_time) :
    handleReconnect connected sessions session_id = (true, .resumed start_time) := by
  unfold handleReconnect
  rw [hconn, hsess]

/-- Claim C3 witness: the amended behaviour at a concrete state. -/
theorem C3_reconnect_warns_but_resumes_witness :
    handleReconnect [(1, 42)] [(42, 1000)] 42 = (true, .resumed 1000) :=
  C3_reconnect_warns_but_resumes [(1, 42)] [(42, 1000)] 42 1000 (by decide) (by decide)

/-! ### GNSS speed parsing (`gnss_service.rs`, `parse_gnss_info`)

The parser reads the URC's speed field in knots, converts it to km/h with
`speed_knots * 1.852`, rejects the message when the converted value exceeds
500 km/h — and then stores `speed_kph / 1.852` (the knots value again!) into
the `speed_kph` field of `GNSSState`.  The `f32` arithmetic is idealised as
exact rational arithmetic here; the division-back structure is preserved
verbatim from the source. -/

/-- The speed pipeline of `parse_gnss_info`: from the URC speed field (knots)
to the `speed_kph` field of the produced `GNSSState` (and of the
`TrackPoint` built from it), with the > 500 km/h rejection. -/
def parseGnssSpeedField (speed_knots : ℚ) : Option ℚ :=
  let speed_kph := speed_knots * (1852 / 1000)
  if speed_kph > 500 then none
  else some (speed_kph / (1852 / 1000))

/-- Claim C5 (code bug): for the well-formed URC speed field `10` knots the
parsed `speed_kph` field is `10` — the knots value — and not
`10 × 1.852 = 18.52` km/h as the specification states; the parser divides the
converted value back by 1.852 before storing it.  The > 500 km/h rejection
itself does fire on the converted value (`280` knots → `518.56` km/h →
rejected). -/
theorem C5_speed_field_is_knots :
    parseGnssSpeedField 10 = some 10 ∧
    (10 : ℚ) ≠ 10 * (1852 / 1000) ∧
    parseGnssSpeedField 280 = none := by
  refine ⟨?_, by norm_num, ?_⟩ <;> (unfold parseGnssSpeedField; norm_num)

/-! ### TSF parsing (`trip_tracker_lib/src/track_point.rs`, `parse_tsf`)

`parse_tsf` slices `bytes[..8]` (panicking when the input is shorter than
8 bytes), maps a `try_into` failure on that slice to the error string
`"Less than 8 bytes"` — dead code, the slice always has exactly 8 bytes —
then calls `DateTime::from_timestamp(timestamp, 0).unwrap()` (a panic when
the timestamp is outside chrono's representable date range), and finally
loops `while i < bytes.len()` copying `bytes[i..i + 15]` (panicking when
fewer than 15 bytes remain) and stepping `i` by 15.  The chrono `DateTime`
value itself is modelled as its integer timestamp.
-/

/-- Modelled from the spec: `MAX_TRACK_POINTS_PER_MESSAGE` is imported by
`upload_service.rs` from `trip_tracker_lib::comms`, but its defining
constant is not present under `src/`.  The wire format carries the batch
size in a single count byte ("count (1 byte)"), so the largest batch is 255
points. -/
def MAX_TRACK_POINTS_PER_MESSAGE : Nat := 255

/-- The `point_cnt` computed per iteration of the `while missing > 0` loop
in `upload_data`. -/
def uploadPointCnt (missing : Nat) : Nat :=
  if MAX_TRACK_POINTS_PER_MESSAGE < missing then MAX_TRACK_POINTS_PER_MESSAGE else missing

/-- The sizes of the batches `upload_data` sends for `missing` points, in
order. -/
def uploadChunks (missing : Nat) : List Nat :=
  if h : missing = 0 then []
  else uploadPointCnt missing :: uploadChunks (missing - uploadPointCnt missing)
termination_by missing
decreasing_by
  have hcnt : 0 < uploadPointCnt missing := by
    unfold uploadPointCnt MAX_TRACK_POINTS_PER_MESSAGE
    split <;> omega
  omega

/-- Observable events of one tick for one session: a confirmed batch send,
or a persist of the uploaded counter to the upload-status file. -/
inductive UploadEvent
  | batchSent (n : Nat)
  | persisted (uploaded : Nat)
  deriving DecidableEq, Repr

/-- The events of one successful tick for a session with `uploaded` points
confirmed and `missing` points outstanding: all chunks are sent, then
`add_uploaded` advances the counter by the TOTAL and `write_upload_status`
persists it once (`upload_actor`, lines 194–208). -/
def tickEvents (uploaded missing : Nat) : List UploadEvent :=
  if missing = 0 then []
  else (uploadChunks missing).map .batchSent ++ [.persisted (uploaded + missing)]

/-- The uploaded counter after a successful tick (`add_uploaded`). -/
def uploadedAfterTick (uploaded missing : Nat) : Nat := uploaded + missing

/-- The per-batch persistence discipline asserted by the claim: after each
single batch of `n` points the counter advances by exactly `n` and is
persisted before any further batch is sent.  (A trailing batch with no
event after it is not constrained.) -/
def perBatchPersistB : Nat → List UploadEvent → Bool
  | _, [] => true
  | u, .persisted v :: rest => (v == u) && perBatchPersistB u rest
  | _, [.batchSent _] => true
  | u, .batchSent n :: .persisted v :: rest => (v == u + n) && perBatchPersistB v rest
  | _, .batchSent _ :: .batchSent _ :: _ => false

theorem uploadPointCnt_pos (missing : Nat) (h : 0 < missing) :
    0 < uploadPointCnt missing ∧ uploadPointCnt missing ≤ missing ∧
      uploadPointCnt missing ≤ MAX_TRACK_POINTS_PER_MESSAGE := by
  unfold uploadPointCnt MAX_TRACK_POINTS_PER_MESSAGE
  split <;> omega

theorem uploadChunks_spec (missing : Nat) :
    (uploadChunks missing).sum = missing ∧
      ∀ c ∈ uploadChunks missing, 0 < c ∧ c ≤ MAX_TRACK_POINTS_PER_MESSAGE := by
  have key : ∀ (n m : Nat), m ≤ n →
      (uploadChunks m).sum = m ∧
        ∀ c ∈ uploadChunks m, 0 < c ∧ c ≤ MAX_TRACK_POINTS_PER_MESSAGE := by
    intro n
    induction n with
    | zero =>
        intro m hm
        have : m = 0 := by omega
        subst this
        rw [uploadChunks]
        simp
    | succ n ih =>
        intro m hm
        by_cases hz : m = 0
        · subst hz
          rw [uploadChunks]
          simp
        · rw [uploadChunks, dif_neg hz]
          obtain ⟨hpos, hle, hmax⟩ := uploadPointCnt_pos m (by omega)
          obtain ⟨hsum, hmem⟩ := ih (m - uploadPointCnt m) (by omega)
          refine ⟨?_, ?_⟩
          · rw [List.sum_cons, hsum]
            omega
          · intro c hc
            rcases List.mem_cons.mp hc with h | h
            · subst h
              exact ⟨hpos, hmax⟩
            · exact hmem c h
  exact key missing missing le_rfl

theorem uploadChunks_single (missing : Nat) (h1 : 0 < missing)
    (h2 : missing ≤ MAX_TRACK_POINTS_PER_MESSAGE) :
    uploadChunks missing = [missing] := by
  have hcnt : uploadPointCnt missing = missing := by
    unfold uploadPointCnt
    rw [if_neg (by omega)]
  rw [uploadChunks, dif_neg (by omega), hcnt, Nat.sub_self, uploadChunks]
  simp

/-- Claim C1 (amended): for one session in one successful tick, the uploaded
counter never decreases; the batches sent have positive sizes of at most
`MAX_TRACK_POINTS_PER_MESSAGE` and sum to `missing`; the counter advances by
the TOTAL number of points sent in the tick and is persisted exactly once,
after the last batch of the tick (hence before any batch of the next tick);
and when `missing` fits in a single batch the claimed per-batch discipline
does hold. -/
theorem C1_upload_tick (uploaded missing : Nat) :
    uploaded ≤ uploadedAfterTick uploaded missing ∧
    (uploadChunks missing).sum = missing ∧
    (∀ c ∈ uploadChunks missing, 0 < c ∧ c ≤ MAX_TRACK_POINTS_PER_MESSAGE) ∧
    (0 < missing →
      (tickEvents uploaded missing).getLast? =
        some (.persisted (uploadedAfterTick uploaded missing)) ∧
      (tickEvents uploaded missing).countP
          (fun e => match e with | .persisted _ => true | _ => false) = 1) ∧
    (0 < missing → missing ≤ MAX_TRACK_POINTS_PER_MESSAGE →
      perBatchPersistB uploaded (tickEvents uploaded missing) = true) := by
  obtain ⟨hsum, hmem⟩ := uploadChunks_spec missing
  refine ⟨Nat.le_add_right _ _, hsum, hmem, ?_, ?_⟩
  · intro hpos
    unfold tickEvents uploadedAfterTick
    rw [if_neg (by omega)]
    constructor
    · exact List.getLast?_concat _
    · rw [List.countP_append]
      have hzero : (List.map UploadEvent.batchSent (uploadChunks missing)).countP
          (fun e => match e with | .persisted _ => true | _ => false) = 0 := by
        rw [List.countP_eq_zero]
        intro e he
        obtain ⟨c, _, hc⟩ := List.mem_map.mp he
        subst hc
        simp
      rw [hzero]
      rfl
  · intro hpos hfits
    unfold tickEvents
    rw [if_neg (by omega), uploadChunks_single missing hpos hfits]
    simp [perBatchPersistB]

/-- Claim C1 (amended) witness: the single-batch discipline at a concrete
tick. -/
theorem C1_upload_tick_witness :
    perBatchPersistB 5 (tickEvents 5 2) = true :=
  (C1_upload_tick 5 2).2.2.2.2 (by decide) (by decide)

/-- Claim C1 counterexample: with 256 points outstanding, `upload_data`
sends a batch of 255 and then a batch of 1 before the counter is advanced or
persisted — the per-batch "increase by exactly n and persist before the next
batch" discipline fails; the counter is advanced once by 256 at the end of
the tick. -/
theorem C1_counterexample :
    tickEvents 0 256 =
      [.batchSent 255, .batchSent 1, .persisted 256] ∧
    perBatchPersistB 0 (tickEvents 0 256) = false := by
  have hchunks : uploadChunks 256 = [255, 1] := by
    have h1 : uploadChunks 1 = [1] := uploadChunks_single 1 (by decide) (by decide)
    have h256 : uploadChunks 256 = 255 :: uploadChunks 1 := by
      rw [uploadChunks, dif_neg (by omega)]
      norm_num [uploadPointCnt, MAX_TRACK_POINTS_PER_MESSAGE]
    rw [h256, h1]
  have hev : tickEvents 0 256 = [.batchSent 255, .batchSent 1, .persisted 256] := by
    unfold tickEvents
    rw [if_neg (by omega), hchunks]
    rfl
  exact ⟨hev, by rw [hev]; rfl⟩

/-! ### Upload status serialization (`storage_service.rs` / `upload_status.rs`)

`write_upload_status` seeks to the start of `STATE.CSV`, writes the header
line `local_id,remote_id,uploaded\n` and one line `id,remote,uploaded\n`
per session (`itoa` decimal formatting, `?` for an unassigned remote id),
then pads with NUL bytes up to the file's previous length.
`UploadStatus::parse` iterates `str::lines`, skips the header, trims each
line of whitespace and of `'\0'`, skips empty lines, splits at `','` and
parses `u32`, `?`-or-`i64`, `usize` (each with `str::trim` first); every
`unwrap` is modelled as `none`.  Char-level functions mirror the Rust
string operations on `List Char`; only ASCII whitespace is modelled (the
file content is ASCII).
-/

/-- ASCII whitespace, as accepted by Rust `str::trim` on this ASCII file
format (Unicode-only whitespace code points never occur here). -/
def isRustWhitespace (c : Char) : Bool :=
  c.toNat = 9 || c.toNat = 10 || c.toNat = 11 || c.toNat = 12 || c.toNat = 13 || c.toNat = 32

/-- An ASCII decimal digit, as accepted by Rust integer `FromStr`. -/
def isDigitChar (c : Char) : Bool := 48 ≤ c.toNat && c.toNat ≤ 57

def charDigitVal (c : Char) : Nat := c.toNat - 48

/-- Rust `str::trim`: strip leading and trailing whitespace. -/
def trimChars (cs : List Char) : List Char :=
  ((cs.dropWhile isRustWhitespace).reverse.dropWhile isRustWhitespace).reverse

/-- Rust `str::trim_matches(t)`: strip leading and trailing occurrences of
`t`. -/
def trimMatchesChar (t : Char) (cs : List Char) : List Char :=
  ((cs.dropWhile (fun c => c == t)).reverse.dropWhile (fun c => c == t)).reverse

/-- Rust `str::split(sep)`: the fields between occurrences of `sep`; always
at least one (possibly empty) field. -/
def splitOnChar (sep : Char) : List Char → List (List Char)
  | [] => [[]]
  | c :: cs =>
      if c = sep then [] :: splitOnChar sep cs
      else
        match splitOnChar sep cs with
        | [] => [[c]]
        | l :: ls => (c :: l) :: ls

/-- Rust `str::lines`: split on `'\n'`, drop a trailing empty piece, strip a
trailing `'\r'` from each line. -/
def rustLines (cs : List Char) : List (List Char) :=
  (if (splitOnChar '\n' cs).getLast? = some [] then (splitOnChar '\n' cs).dropLast
   else splitOnChar '\n' cs).map
    (fun l => if l.getLast? = some '\r' then l.dropLast else l)

/-- `itoa` decimal formatting of an unsigned integer. -/
def natToChars (n : Nat) : List Char :=
  if n = 0 then ['0'] else ((Nat.digits 10 n).map Nat.digitChar).reverse

/-- `itoa` decimal formatting of an `i64`. -/
def intToChars (z : Int) : List Char :=
  if z < 0 then '-' :: natToChars z.natAbs else natToChars z.toNat

/-- The digit-run part of Rust integer parsing: at least one character, all
ASCII digits, value accumulated in base 10. -/
def parseDigits (cs : List Char) : Option Nat :=
  if cs = [] then none
  else if cs.all isDigitChar then
    some (cs.foldl (fun acc c => acc * 10 + charDigitVal c) 0)
  else none

/-- Rust `str::parse` for an unsigned integer type with exclusive bound
`bound` (`2^32` for `u32`, `2^64` for `usize`): optional `+` sign, digits,
overflow is an error. -/
def parseUnsignedChars (bound : Nat) (cs : List Char) : Option Nat :=
  match cs with
  | [] => none
  | c :: rest =>
      if c = '+' then (parseDigits rest).bind (fun v => if v < bound then some v else none)
      else (parseDigits (c :: rest)).bind (fun v => if v < bound then some v else none)

/-- Rust `str::parse::<i64>`: optional sign, digits, two's-complement range
check. -/
def parseI64Chars (cs : List Char) : Option Int :=
  match cs with
  | [] => none
  | c :: rest =>
      if c = '-' then
        (parseDigits rest).bind (fun v => if v ≤ 2 ^ 63 then some (-(v : Int)) else none)
      else if c = '+' then
        (parseDigits rest).bind (fun v => if v < 2 ^ 63 then some ((v : Int)) else none)
      else
        (parseDigits (c :: rest)).bind (fun v => if v < 2 ^ 63 then some ((v : Int)) else none)

/-- `SessionUploadStatus` (`upload_status.rs`): `local_id: u32`,
`remote_id: Option<i64>`, `uploaded: usize`. -/
structure SessionUploadStatus where
  local_id : Nat
  remote_id : Option Int
  uploaded : Nat
  deriving DecidableEq, Repr

/-- The field ranges of the Rust integer types of `SessionUploadStatus`. -/
def SessionUploadStatus.wf (s : SessionUploadStatus) : Prop :=
  s.local_id < 2 ^ 32 ∧ s.uploaded < 2 ^ 64 ∧
    match s.remote_id with
    | some r => isI64 r
    | none => True

instance (s : SessionUploadStatus) : Decidable s.wf := by
  unfold SessionUploadStatus.wf
  cases s.remote_id <;> (simp only []; infer_instance)

/-- The remote-id field as written by `write_upload_status`: the decimal
`i64` or the literal `?`. -/
def remoteChars : Option Int → List Char
  | some r => intToChars r
  | none => ['?']

/-- One entry line of `STATE.CSV`, without the terminating newline:
`local_id,remote_id,uploaded`. -/
def statusLineChars (s : SessionUploadStatus) : List Char :=
  natToChars s.local_id ++ ',' :: (remoteChars s.remote_id ++ ',' :: natToChars s.uploaded)

/-- The header line of `STATE.CSV`, without the terminating newline. -/
def headerBody : List Char := "local_id,remote_id,uploaded".toList

/-- The bytes `write_upload_status` writes before padding: header line then
one line per session, each `'\n'`-terminated. -/
def writeUploadStatusContent (sessions : List SessionUploadStatus) : List Char :=
  headerBody ++ '\n' :: (sessions.map (fun s => statusLineChars s ++ ['\n'])).flatten

/-- The full resulting file content of `write_upload_status` when the file
previously held `prevLen` bytes: the new content, NUL-padded up to the
previous length. -/
def writeUploadStatusFile (sessions : List SessionUploadStatus) (prevLen : Nat) : List Char :=
  writeUploadStatusContent sessions ++
    List.replicate (prevLen - (writeUploadStatusContent sessions).length) (Char.ofNat 0)

/-- The body of the `while let Some(line) = lines.next()` loop of
`UploadStatus::parse`: trim, skip empty, split at `','`, parse the three
fields (every `unwrap` panic is `none`); extra fields after the third are
not consumed. -/
def parseStatusLines : List (List Char) → Option (List SessionUploadStatus)
  | [] => some []
  | line :: rest =>
      if trimMatchesChar (Char.ofNat 0) (trimChars line) = [] then parseStatusLines rest
      else
        match splitOnChar ',' (trimMatchesChar (Char.ofNat 0) (trimChars line)) with
        | [] => none
        | p1 :: parts2 =>
            (parseUnsignedChars (2 ^ 32) (trimChars p1)).bind fun local_id =>
              match parts2 with
              | [] => none
              | p2 :: parts3 =>
                  (if trimChars p2 = ['?'] then some none
                   else (parseI64Chars (trimChars p2)).map some).bind fun remote_id =>
                    match parts3 with
                    | [] => none
                    | p3 :: _ =>
                        (parseUnsignedChars (2 ^ 64) (trimChars p3)).bind fun uploaded =>
                          (parseStatusLines rest).map
                            (fun tail =>
                              { local_id := local_id, remote_id := remote_id,
                                uploaded := uploaded } :: tail)

/-- `UploadStatus::parse`: skip the header line, then parse entry lines. -/
def uploadStatusParse (input : List Char) : Option (List SessionUploadStatus) :=
  parseStatusLines ((rustLines input).drop 1)

theorem dropWhileAll {α : Type} (p : α → Bool) (cs : List α)
    (h : ∀ c ∈ cs, p c = false) : cs.dropWhile p = cs := by
  cases cs with
  | nil => rfl
  | cons c t =>
      rw [List.dropWhile_cons, if_neg]
      rw [h c (List.mem_cons_self c t)]
      simp

theorem trimChars_noop (cs : List Char)
    (h : ∀ c ∈ cs, isRustWhitespace c = false) : trimChars cs = cs := by
  unfold trimChars
  rw [dropWhileAll _ cs h,
    dropWhileAll _ cs.reverse (fun c hc => h c (List.mem_reverse.mp hc)),
    List.reverse_reverse]

theorem trimMatchesChar_noop (t : Char) (cs : List Char)
    (h : ∀ c ∈ cs, c ≠ t) : trimMatchesChar t cs = cs := by
  have hb : ∀ c ∈ cs, (c == t) = false := fun c hc => beq_eq_false_iff_ne.mpr (h c hc)
  unfold trimMatchesChar
  rw [dropWhileAll _ cs hb,
    dropWhileAll _ cs.reverse (fun c hc => hb c (List.mem_reverse.mp hc)),
    List.reverse_reverse]

theorem dropWhile_replicate (t : Char) (k : Nat) :
    (List.replicate k t).dropWhile (fun c => c == t) = [] := by
  induction k with
  | zero => rfl
  | succ k ih => rw [List.replicate_succ, List.dropWhile_cons, if_pos (by simp)]; exact ih

theorem trimMatchesChar_replicate (t : Char) (k : Nat) :
    trimMatchesChar t (List.replicate k t) = [] := by
  unfold trimMatchesChar
  rw [dropWhile_replicate, List.reverse_nil]
  rfl

theorem splitOnChar_ne_nil (sep : Char) (cs : List Char) : splitOnChar sep cs ≠ [] := by
  cases cs with
  | nil => simp [splitOnChar]
  | cons c t =>
      rw [splitOnChar]
      by_cases h : c = sep
      · rw [if_pos h]; simp
      · rw [if_neg h]
        cases hs : splitOnChar sep t <;> simp

theorem splitOnChar_no_sep (sep : Char) (cs : List Char) (h : sep ∉ cs) :
    splitOnChar sep cs = [cs] := by
  induction cs with
  | nil => rfl
  | cons c t ih =>
      have hcne : c ≠ sep := by
        intro heq
        subst heq
        exact h (List.mem_cons_self c t)
      rw [splitOnChar, if_neg hcne, ih (fun hm => h (List.mem_cons_of_mem c hm))]

theorem splitOnChar_append (sep : Char) (A B : List Char) (h : sep ∉ A) :
    splitOnChar sep (A ++ sep :: B) = A :: splitOnChar sep B := by
  induction A with
  | nil =>
      rw [List.nil_append, splitOnChar, if_pos rfl]
  | cons a t ih =>
      have ha : a ≠ sep := by
        intro heq
        subst heq
        exact h (List.mem_cons_self a t)
      rw [List.cons_append, splitOnChar, if_neg ha,
        ih (fun hm => h (List.mem_cons_of_mem a hm))]

theorem mem_of_getLastQ : ∀ (l : List Char) (a : Char), l.getLast? = some a → a ∈ l
  | [], _, h => by simp at h
  | [x], a, h => by
      simp only [List.getLast?_singleton, Option.some_inj] at h
      simp [h]
  | x :: y :: t, a, h => by
      rw [List.getLast?_cons_cons] at h
      exact List.mem_cons_of_mem x (mem_of_getLastQ (y :: t) a h)

/-! Decimal digit formatting and parsing round trip. -/

theorem digitChar_isDigitChar (d : Nat) (h : d < 10) :
    isDigitChar (Nat.digitChar d) = true := by
  interval_cases d <;> decide

theorem digitChar_val (d : Nat) (h : d < 10) : charDigitVal (Nat.digitChar d) = d := by
  interval_cases d <;> decide

theorem natToChars_ne_nil (n : Nat) : natToChars n ≠ [] := by
  unfold natToChars
  by_cases h : n = 0
  · rw [if_pos h]; simp
  · rw [if_neg h]
    simp only [ne_eq, List.reverse_eq_nil_iff, List.map_eq_nil_iff]
    exact Nat.digits_ne_nil_iff_ne_zero.mpr h

theorem natToChars_digit (n : Nat) : ∀ c ∈ natToChars n, isDigitChar c = true := by
  intro c hc
  unfold natToChars at hc
  by_cases h : n = 0
  · rw [if_pos h] at hc
    simp only [List.mem_singleton] at hc
    subst hc
    decide
  · rw [if_neg h] at hc
    rw [List.mem_reverse] at hc
    obtain ⟨d, hd, hdc⟩ := List.mem_map.mp hc
    subst hdc
    exact digitChar_isDigitChar d (Nat.digits_lt_base (by norm_num) hd)

theorem foldl_digits (L : List Nat) (a : Nat) (h : ∀ d ∈ L, d < 10) :
    ((L.map Nat.digitChar).reverse).foldl (fun acc c => acc * 10 + charDigitVal c) a =
      a * 10 ^ L.length + Nat.ofDigits 10 L := by
  induction L generalizing a with
  | nil => simp
  | cons d T ih =>
      rw [List.map_cons, List.reverse_cons, List.foldl_append]
      rw [ih a (fun x hx => h x (List.mem_cons_of_mem d hx))]
      simp only [List.foldl_cons, List.foldl_nil,
        digitChar_val d (h d (List.mem_cons_self d T))]
      rw [Nat.ofDigits_cons, List.length_cons, pow_succ]
      ring

theorem parseDigits_natToChars (n : Nat) : parseDigits (natToChars n) = some n := by
  by_cases h : n = 0
  · subst h; decide
  · unfold parseDigits
    rw [if_neg (natToChars_ne_nil n),
      if_pos (List.all_eq_true.mpr (natToChars_digit n))]
    unfold natToChars
    rw [if_neg h, foldl_digits _ _ (fun d hd => Nat.digits_lt_base (by norm_num) hd)]
    rw [Nat.ofDigits_digits]
    simp

/-! Character class facts for the `STATE.CSV` alphabet. -/

/-- The characters that can occur in an entry line of `STATE.CSV`. -/
def isStatusChar (c : Char) : Bool :=
  isDigitChar c || c == ',' || c == '?' || c == '-'

theorem statusChar_toNat (c : Char) (h : isStatusChar c = true) :
    (48 ≤ c.toNat ∧ c.toNat ≤ 57) ∨ c.toNat = 44 ∨ c.toNat = 63 ∨ c.toNat = 45 := by
  unfold isStatusChar isDigitChar at h
  simp only [Bool.or_eq_true, Bool.and_eq_true, decide_eq_true_eq, beq_iff_eq] at h
  rcases h with ((⟨h1, h2⟩ | h3) | h4) | h5
  · exact Or.inl ⟨h1, h2⟩
  · subst h3; exact Or.inr (Or.inl rfl)
  · subst h4; exact Or.inr (Or.inr (Or.inl rfl))
  · subst h5; exact Or.inr (Or.inr (Or.inr rfl))

theorem statusChar_not_ws (c : Char) (h : isStatusChar c = true) :
    isRustWhitespace c = false := by
  have htn := statusChar_toNat c h
  unfold isRustWhitespace
  simp only [Bool.or_eq_false_iff, decide_eq_false_iff_not]
  omega

theorem statusChar_ne_nul (c : Char) (h : isStatusChar c = true) : c ≠ Char.ofNat 0 := by
  have htn := statusChar_toNat c h
  intro heq
  subst heq
  revert htn
  decide

theorem statusChar_ne_lf (c : Char) (h : isStatusChar c = true) : c ≠ '\n' := by
  have htn := statusChar_toNat c h
  intro heq
  subst heq
  revert htn
  decide

theorem statusChar_ne_cr (c : Char) (h : isStatusChar c = true) : c ≠ '\r' := by
  have htn := statusChar_toNat c h
  intro heq
  subst heq
  revert htn
  decide

theorem digit_ne_of_not_digit (c t : Char) (h : isDigitChar c = true)
    (ht : isDigitChar t = false) : c ≠ t := by
  intro heq
  subst heq
  exact absurd (h.symm.trans ht) (by decide)

theorem natToChars_status (n : Nat) : ∀ c ∈ natToChars n, isStatusChar c = true := by
  intro c hc
  unfold isStatusChar
  rw [natToChars_digit n c hc]
  rfl

theorem intToChars_status (z : Int) : ∀ c ∈ intToChars z, isStatusChar c = true := by
  intro c hc
  unfold intToChars at hc
  by_cases h : z < 0
  · rw [if_pos h] at hc
    rcases List.mem_cons.mp hc with h1 | h2
    · subst h1; decide
    · exact natToChars_status _ c h2
  · rw [if_neg h] at hc
    exact natToChars_status _ c hc

theorem remoteChars_status (o : Option Int) : ∀ c ∈ remoteChars o, isStatusChar c = true := by
  intro c hc
  cases o with
  | none =>
      simp only [remoteChars, List.mem_singleton] at hc
      subst hc; decide
  | some r => exact intToChars_status r c hc

theorem statusLineChars_status (s : SessionUploadStatus) :
    ∀ c ∈ statusLineChars s, isStatusChar c = true := by
  intro c hc
  unfold statusLineChars at hc
  rcases List.mem_append.mp hc with h1 | h2
  · exact natToChars_status _ c h1
  · rcases List.mem_cons.mp h2 with h3 | h4
    · subst h3; decide
    · rcases List.mem_append.mp h4 with h5 | h6
      · exact remoteChars_status _ c h5
      · rcases List.mem_cons.mp h6 with h7 | h8
        · subst h7; decide
        · exact natToChars_status _ c h8

/-- No comma occurs inside a single written field. -/
theorem natToChars_no_comma (n : Nat) : ',' ∉ natToChars n := by
  intro hc
  have hd := natToChars_digit n ',' hc
  revert hd
  decide

theorem remoteChars_no_comma (o : Option Int) : ',' ∉ remoteChars o := by
  intro hc
  cases o with
  | none =>
      simp only [remoteChars, List.mem_singleton] at hc
      revert hc
      decide
  | some r =>
      simp only [remoteChars] at hc
      unfold intToChars at hc
      by_cases h : r < 0
      · rw [if_pos h] at hc
        rcases List.mem_cons.mp hc with h1 | h2
        · revert h1; decide
        · exact natToChars_no_comma _ h2
      · rw [if_neg h] at hc
        exact natToChars_no_comma _ hc

/-! Unsigned and signed parse round trips. -/

theorem parseUnsignedChars_natToChars (bound n : Nat) (h : n < bound) :
    parseUnsignedChars bound (natToChars n) = some n := by
  cases hcs : natToChars n with
  | nil => exact absurd hcs (natToChars_ne_nil n)
  | cons c rest =>
      have hcd : isDigitChar c = true := by
        apply natToChars_digit n
        rw [hcs]
        exact List.mem_cons_self c rest
      have hplus : c ≠ '+' := digit_ne_of_not_digit c '+' hcd (by decide)
      simp only [parseUnsignedChars]
      rw [if_neg hplus, ← hcs, parseDigits_natToChars]
      simp [h]

theorem parseI64Chars_intToChars (z : Int) (h : isI64 z) :
    parseI64Chars (intToChars z) = some z := by
  obtain ⟨h1, h2⟩ := h
  by_cases hneg : z < 0
  · have hz : intToChars z = '-' :: natToChars z.natAbs := by
      unfold intToChars
      rw [if_pos hneg]
    rw [hz]
    simp only [parseI64Chars]
    rw [if_pos trivial, parseDigits_natToChars]
    have hbound : z.natAbs ≤ 2 ^ 63 := by omega
    simp only [Option.some_bind, if_pos hbound]
    congr 1
    omega
  · have hz : intToChars z = natToChars z.toNat := by
      unfold intToChars
      rw [if_neg hneg]
    rw [hz]
    cases hcs : natToChars z.toNat with
    | nil => exact absurd hcs (natToChars_ne_nil _)
    | cons c rest =>
        have hcd : isDigitChar c = true := by
          apply natToChars_digit z.toNat
          rw [hcs]
          exact List.mem_cons_self c rest
        have hminus : c ≠ '-' := digit_ne_of_not_digit c '-' hcd (by decide)
        have hplus : c ≠ '+' := digit_ne_of_not_digit c '+' hcd (by decide)
        simp only [parseI64Chars]
        rw [if_neg hminus, if_neg hplus, ← hcs, parseDigits_natToChars]
        have hbound : z.toNat < 2 ^ 63 := by omega
        simp only [Option.some_bind, if_pos hbound]
        congr 1
        omega

theorem intToChars_digit_or_minus (z : Int) :
    ∀ c ∈ intToChars z, isDigitChar c = true ∨ c = '-' := by
  intro c hc
  unfold intToChars at hc
  by_cases h : z < 0
  · rw [if_pos h] at hc
    rcases List.mem_cons.mp hc with h1 | h2
    · exact Or.inr h1
    · exact Or.inl (natToChars_digit _ c h2)
  · rw [if_neg h] at hc
    exact Or.inl (natToChars_digit _ c hc)

/-- `intToChars` never collides with the literal `?` field. -/
theorem intToChars_ne_question (z : Int) : intToChars z ≠ ['?'] := by
  intro heq
  have hq : '?' ∈ intToChars z := by
    rw [heq]
    exact List.mem_singleton.mpr rfl
  have := intToChars_digit_or_minus z '?' hq
  revert this
  decide

/-! Splitting the written file back into lines. -/

theorem splitFlatten (lines : List (List Char)) (P : List Char)
    (hl : ∀ l ∈ lines, '\n' ∉ l) (hP : '\n' ∉ P) :
    splitOnChar '\n' ((lines.map (fun l => l ++ ['\n'])).flatten ++ P) = lines ++ [P] := by
  induction lines with
  | nil => simpa using splitOnChar_no_sep '\n' P hP
  | cons l t ih =>
      rw [List.map_cons, List.flatten_cons, List.append_assoc, List.append_assoc,
        List.singleton_append,
        splitOnChar_append '\n' l _ (hl l (List.mem_cons_self l t)),
        ih (fun x hx => hl x (List.mem_cons_of_mem l hx))]
      rfl

theorem map_strip_cr_noop (ps : List (List Char)) (hps : ∀ p ∈ ps, '\r' ∉ p) :
    ps.map (fun l => if l.getLast? = some '\r' then l.dropLast else l) = ps := by
  have hcong : ∀ p ∈ ps, (if p.getLast? = some '\r' then p.dropLast else p) = p := by
    intro p hp
    rw [if_neg]
    intro hg
    exact hps p hp (mem_of_getLastQ p '\r' hg)
  rw [List.map_congr_left hcong, List.map_id']

/-! Parsing the entry lines back. -/

theorem parseStatusLines_entry (s : SessionUploadStatus) (hwf : s.wf)
    (T : List (List Char)) :
    parseStatusLines (statusLineChars s :: T) =
      (parseStatusLines T).map (fun tail => s :: tail) := by
  obtain ⟨hid, hup, hrem⟩ := hwf
  have hstatus := statusLineChars_status s
  have htrim : trimChars (statusLineChars s) = statusLineChars s :=
    trimChars_noop _ (fun c hc => statusChar_not_ws c (hstatus c hc))
  have htm : trimMatchesChar (Char.ofNat 0) (statusLineChars s) = statusLineChars s :=
    trimMatchesChar_noop _ _ (fun c hc => statusChar_ne_nul c (hstatus c hc))
  have hne : statusLineChars s ≠ [] := by
    unfold statusLineChars
    intro h
    exact natToChars_ne_nil s.local_id (List.append_eq_nil.mp h).1
  have hsplit : splitOnChar ',' (statusLineChars s) =
      [natToChars s.local_id, remoteChars s.remote_id, natToChars s.uploaded] := by
    unfold statusLineChars
    rw [splitOnChar_append ',' _ _ (natToChars_no_comma _),
      splitOnChar_append ',' _ _ (remoteChars_no_comma _),
      splitOnChar_no_sep ',' _ (natToChars_no_comma _)]
  have htrim1 : trimChars (natToChars s.local_id) = natToChars s.local_id :=
    trimChars_noop _ (fun c hc => statusChar_not_ws c (natToChars_status _ c hc))
  have htrim2 : trimChars (remoteChars s.remote_id) = remoteChars s.remote_id :=
    trimChars_noop _ (fun c hc => statusChar_not_ws c (remoteChars_status _ c hc))
  have htrim3 : trimChars (natToChars s.uploaded) = natToChars s.uploaded :=
    trimChars_noop _ (fun c hc => statusChar_not_ws c (natToChars_status _ c hc))
  have hremote : (if trimChars (remoteChars s.remote_id) = ['?'] then some none
      else (parseI64Chars (trimChars (remoteChars s.remote_id))).map some) =
        some s.remote_id := by
    rw [htrim2]
    cases hrm : s.remote_id with
    | none => rw [hrm] at *; rfl
    | some r =>
        rw [hrm] at hrem
        simp only [remoteChars]
        rw [if_neg (intToChars_ne_question r), parseI64Chars_intToChars r hrem]
        rfl
  simp only [parseStatusLines, htrim, htm, hne, if_neg, hsplit]
  rw [htrim1, parseUnsignedChars_natToChars _ _ hid]
  simp only [Option.some_bind]
  rw [hremote]
  simp only [Option.some_bind]
  rw [htrim3, parseUnsignedChars_natToChars _ _ hup]
  simp only [Option.some_bind]
  rfl

theorem parseStatusLines_pad (k : Nat) :
    parseStatusLines [List.replicate k (Char.ofNat 0)] = some [] := by
  have hts : trimChars (List.replicate k (Char.ofNat 0)) =
      List.replicate k (Char.ofNat 0) :=
    trimChars_noop _ (fun c hc => by
      rw [List.eq_of_mem_replicate hc]
      decide)
  simp only [parseStatusLines, hts, trimMatchesChar_replicate]
  rfl

theorem parseStatusLines_entries (sessions : List SessionUploadStatus)
    (hwf : ∀ s ∈ sessions, s.wf) (T : List (List Char))
    (res : List SessionUploadStatus) (hT : parseStatusLines T = some res) :
    parseStatusLines (sessions.map statusLineChars ++ T) = some (sessions ++ res) := by
  induction sessions with
  | nil => simpa using hT
  | cons s t ih =>
      rw [List.map_cons, List.cons_append,
        parseStatusLines_entry s (hwf s (List.mem_cons_self s t)) _,
        ih (fun x hx => hwf x (List.mem_cons_of_mem s hx))]
      rfl

/-- Claim C9: writing any `UploadStatus` whose fields are in the Rust integer
ranges with `write_upload_status` — to a file that previously held `prevLen`
bytes, so with NUL padding when the new content is shorter — and parsing the
resulting file content with `UploadStatus::parse` recovers exactly the same
ordered list of `(local_id, remote_id, uploaded)` entries. -/
theorem C9_upload_status_roundtrip (sessions : List SessionUploadStatus)
    (prevLen : Nat) (hwf : ∀ s ∈ sessions, s.wf) :
    uploadStatusParse (writeUploadStatusFile sessions prevLen) = some sessions := by
  have hheader : '\n' ∉ headerBody := by decide
  have hheadercr : '\r' ∉ headerBody := by decide
  have hlines : ∀ l ∈ sessions.map statusLineChars, '\n' ∉ l := by
    intro l hl hcon
    obtain ⟨s, _, rfl⟩ := List.mem_map.mp hl
    exact statusChar_ne_lf '\n' (statusLineChars_status s '\n' hcon) rfl
  have hlinescr : ∀ l ∈ sessions.map statusLineChars, '\r' ∉ l := by
    intro l hl hcon
    obtain ⟨s, _, rfl⟩ := List.mem_map.mp hl
    exact statusChar_ne_cr '\r' (statusLineChars_status s '\r' hcon) rfl
  set k := prevLen - (writeUploadStatusContent sessions).length with hkdef
  have hP : '\n' ∉ List.replicate k (Char.ofNat 0) := by
    intro hc
    exact absurd (List.eq_of_mem_replicate hc) (by decide)
  have hPcr : '\r' ∉ List.replicate k (Char.ofNat 0) := by
    intro hc
    exact absurd (List.eq_of_mem_replicate hc) (by decide)
  have hfile : writeUploadStatusFile sessions prevLen =
      headerBody ++ '\n' ::
        (((sessions.map statusLineChars).map (fun l => l ++ ['\n'])).flatten ++
          List.replicate k (Char.ofNat 0)) := by
    show writeUploadStatusContent sessions ++ List.replicate k (Char.ofNat 0) = _
    unfold writeUploadStatusContent
    rw [List.map_map, List.append_assoc]
    rfl
  have hsplit : splitOnChar '\n' (writeUploadStatusFile sessions prevLen) =
      headerBody :: (sessions.map statusLineChars ++ [List.replicate k (Char.ofNat 0)]) := by
    rw [hfile, splitOnChar_append '\n' headerBody _ hheader,
      splitFlatten _ _ hlines hP]
  have hcast : headerBody :: (sessions.map statusLineChars ++
        [List.replicate k (Char.ofNat 0)]) =
      (headerBody :: sessions.map statusLineChars) ++ [List.replicate k (Char.ofNat 0)] := by
    simp
  by_cases hk0 : k = 0
  · have hsplit0 : splitOnChar '\n' (writeUploadStatusFile sessions prevLen) =
        (headerBody :: sessions.map statusLineChars) ++ [[]] := by
      rw [hsplit, hk0]
      simp
    have hrl : rustLines (writeUploadStatusFile sessions prevLen) =
        headerBody :: sessions.map statusLineChars := by
      unfold rustLines
      rw [hsplit0, if_pos (List.getLast?_concat _), List.dropLast_concat]
      apply map_strip_cr_noop
      intro p hp
      rcases List.mem_cons.mp hp with h1 | h2
      · subst h1; exact hheadercr
      · exact hlinescr p h2
    unfold uploadStatusParse
    rw [hrl, List.drop_one, List.tail_cons]
    have := parseStatusLines_entries sessions hwf [] [] rfl
    rw [List.append_nil, List.append_nil] at this
    exact this
  · have hPne : List.replicate k (Char.ofNat 0) ≠ [] := by
      intro h
      have := congrArg List.length h
      rw [List.length_replicate] at this
      exact hk0 this
    have hrl : rustLines (writeUploadStatusFile sessions prevLen) =
        headerBody :: (sessions.map statusLineChars ++
          [List.replicate k (Char.ofNat 0)]) := by
      unfold rustLines
      rw [hsplit]
      rw [if_neg (by
        rw [hcast, List.getLast?_concat]
        intro h
        exact hPne (Option.some_inj.mp h))]
      apply map_strip_cr_noop
      intro p hp
      rcases List.mem_cons.mp hp with h1 | h2
      · subst h1; exact hheadercr
      · rcases List.mem_append.mp h2 with h3 | h4
        · exact hlinescr p h3
        · rw [List.mem_singleton.mp h4]
          exact hPcr
    unfold uploadStatusParse
    rw [hrl, List.drop_one, List.tail_cons]
    have := parseStatusLines_entries sessions hwf
      [List.replicate k (Char.ofNat 0)] [] (parseStatusLines_pad k)
    rw [List.append_nil] at this
    exact this

/-- Claim C9 witness: the round trip at a concrete status list with padding. -/
theorem C9_upload_status_roundtrip_witness :
    uploadStatusParse
        (writeUploadStatusFile
          [{ local_id := 3, remote_id := some 99, uploaded := 5 },
           { local_id := 4, remote_id := none, uploaded := 0 }] 120) =
      some [{ local_id := 3, remote_id := some 99, uploaded := 5 },
            { local_id := 4, remote_id := none, uploaded := 0 }] :=
  C9_upload_status_roundtrip _ 120 (by decide)

end TripTracker
